import Mathlib

/-!
Verification of the glitched-analytics-plugin core (src/main.ts).

JavaScript strings are modelled as lists of characters (`Str`), JavaScript
numbers appearing in analytics rows as `Nat`, and fallible code (a thrown
`TypeError`) as `Option`.  The external collaborators (the `moment` date
parser, the OAuth authorization call, the analytics query, the Obsidian
editor) are modelled as explicit inputs or as concrete executable models,
each documented at its definition.
-/

/-- JavaScript strings, modelled as lists of characters. -/
abbrev Str := List Char

/-- The character for a single decimal digit `d < 10` (codepoint `48 + d`). -/
def digitChar (d : Nat) : Char := Char.ofNat (48 + d)

/-- Fuel-driven decimal rendering of a natural number, mirroring the decimal
form produced by JavaScript template interpolation for a non-negative
integer.  The fuel argument makes the recursion structural. -/
def toDecimalAux : Nat → Nat → Str
  | 0, _ => []
  | fuel + 1, n =>
    if n < 10 then [digitChar n]
    else toDecimalAux fuel (n / 10) ++ [digitChar (n % 10)]

/-- Decimal rendering of a cell value, as in `${dataValue}` in the source. -/
def toDecimal (n : Nat) : Str := toDecimalAux (n + 1) n

/-- Leading-whitespace removal, one half of JavaScript's `String.trim()`. -/
def dropLead (l : Str) : Str := l.dropWhile Char.isWhitespace

/-- Trailing-whitespace removal, the other half of `String.trim()`. -/
def dropTrail (l : Str) : Str := (l.reverse.dropWhile Char.isWhitespace).reverse

/-- JavaScript's `String.trim()`: strips whitespace from both ends. -/
def trimChars (l : Str) : Str := dropTrail (dropLead l)

/-- Numeric value of a digit character. -/
def digitVal (c : Char) : Nat := c.toNat - 48

/-- Gregorian leap-year test, used by the calendar-date model. -/
def isLeapYear (y : Nat) : Bool := (y % 4 == 0 && y % 100 != 0) || (y % 400 == 0)

/-- Number of days in a month of a given year. -/
def daysInMonth (y m : Nat) : Nat :=
  if m == 2 then (if isLeapYear y then 29 else 28)
  else if m == 4 || m == 6 || m == 9 || m == 11 then 30
  else 31

/-- Model of the external date collaborator
`moment(s, "YYYY-MM-DD").isValid()`: the string parses as a valid calendar
date written as four year digits, two month digits and two day digits,
separated by dashes. -/
def momentIsValid (s : Str) : Bool :=
  match s with
  | [y1, y2, y3, y4, '-', m1, m2, '-', d1, d2] =>
    y1.isDigit && y2.isDigit && y3.isDigit && y4.isDigit &&
    m1.isDigit && m2.isDigit && d1.isDigit && d2.isDigit &&
    (let y := ((digitVal y1 * 10 + digitVal y2) * 10 + digitVal y3) * 10 + digitVal y4
     let m := digitVal m1 * 10 + digitVal m2
     let d := digitVal d1 * 10 + digitVal d2
     decide (1 ≤ m ∧ m ≤ 12 ∧ 1 ≤ d ∧ d ≤ daysInMonth y m))
  | _ => false

/-- One column-header descriptor of an `AnalyticsReport`
(interface `AnalyticsReportColumn` in the source). -/
structure AnalyticsReportColumn where
  name : Str
  columnType : Str
  dataType : Str
deriving DecidableEq

/-- The dynamically returned report object (interface `AnalyticsReport`):
ordered column headers and ordered numeric rows. -/
structure AnalyticsReport where
  columnHeaders : List AnalyticsReportColumn
  rows : List (List Nat)
deriving DecidableEq

/-- Result of options validation (type `OptionsValidationResult`):
`violations` is `none` exactly when the source leaves it `undefined`. -/
structure OptionsValidationResult where
  valid : Bool
  violations : Option Str
deriving DecidableEq

/-- User-supplied report parameters (interface `VideoReportOptions`). -/
structure VideoReportOptions where
  endDate : Str
  startDate : Str
  metrics : Str
  videoId : Str
deriving DecidableEq

/-- Cached OAuth2 credentials: the `credentials.expiry_date` field of the
client, in epoch milliseconds; `none` models an absent field. -/
structure Credentials where
  expiry_date : Option Nat
deriving DecidableEq

/-- The freshness check `shouldAuthenticate` of the source.  The cached
`oauth2Client` is `none` when nothing is cached (`== null`), and
`timeNowMs` is the number the source compares against the expiry.  The
JavaScript truthiness test `!cachedCreds.expiry_date` holds for an absent
field and for the number `0`. -/
def shouldAuthenticate (oauth2Client : Option Credentials) (timeNowMs : Nat) : Bool :=
  match oauth2Client with
  | none => true
  | some cachedCreds =>
    match cachedCreds.expiry_date with
    | none => true
    | some e => if e == 0 then true else decide (timeNowMs > e)

/-- The separator written between a column name and a cell value:
the literal `:: ` of the template `${columnName}:: ${dataValue}\n`. -/
def sepStr : Str := (":: ".toList)

/-- The chunk appended to the accumulator for one cell:
`${columnName}:: ${dataValue}\n`. -/
def cellChunk (h : AnalyticsReportColumn) (v : Nat) : Str :=
  h.name ++ sepStr ++ toDecimal v ++ ("\n".toList)

/-- The inner loop of `formatReport` over one row: for cell `j` the source
reads `data.columnHeaders[j].name`.  Indexing past the end of the header
list yields `undefined` in JavaScript and reading `.name` on it throws a
`TypeError`; the thrown path is modelled by `none`.  The recursion consumes
the header list in lockstep with the row, which agrees with indexing both
by `j` from zero. -/
def formatCells : List AnalyticsReportColumn → List Nat → Option Str
  | _, [] => some []
  | [], _ :: _ => none
  | h :: hs, v :: vs =>
    (formatCells hs vs).map fun rest => cellChunk h v ++ rest

/-- The outer loop of `formatReport` over all rows. -/
def formatRows (hs : List AnalyticsReportColumn) : List (List Nat) → Option Str
  | [] => some []
  | row :: rest => do
    let a ← formatCells hs row
    let b ← formatRows hs rest
    pure (a ++ b)

/-- `formatReport` of the source: accumulate `${columnName}:: ${dataValue}\n`
per cell, row by row, and return the accumulator with `.trim()` applied;
`none` models the `TypeError` thrown on an out-of-bounds header access. -/
def formatReport (data : AnalyticsReport) : Option Str :=
  (formatRows data.columnHeaders data.rows).map trimChars

/-- `validateOptions` of the source: four independent checks, each appending
`"\n"` and a tab-indented message to the accumulated violations and
clearing `valid`; `!options.metrics` and `!options.videoId` are the
JavaScript truthiness tests, holding exactly for the empty string. -/
def validateOptions (options : VideoReportOptions) : OptionsValidationResult :=
  let violations : Str := []
  let valid := true
  let (violations, valid) :=
    if !(momentIsValid options.startDate) then
      (violations ++ ("\n".toList) ++ ("\tstartDate: not set correctly.".toList), false)
    else (violations, valid)
  let (violations, valid) :=
    if !(momentIsValid options.endDate) then
      (violations ++ ("\n".toList) ++ ("\tendDate: not set correctly.".toList), false)
    else (violations, valid)
  let (violations, valid) :=
    if options.metrics.isEmpty then
      (violations ++ ("\n".toList) ++ ("\tmetrics: not set correctly.".toList), false)
    else (violations, valid)
  let (violations, valid) :=
    if options.videoId.isEmpty then
      (violations ++ ("\n".toList) ++ ("\tvideoId: not set correctly.".toList), false)
    else (violations, valid)
  if valid then { valid := valid, violations := none }
  else { valid := valid, violations := some (trimChars violations) }

/-- Outcome of the external query collaborator
(`google.youtubeAnalytics("v2").reports.query`): a report payload on
success, an error detail on rejection. -/
inductive QueryOutcome where
  | success (report : AnalyticsReport)
  | failure (e : Str)
deriving DecidableEq

/-- Outcome of the external authorization collaborator (`authenticate`). -/
inductive AuthOutcome where
  | ok (client : Credentials)
  | err (e : Str)
deriving DecidableEq

/-- Observable effects of one `fetchReportDetails` invocation: error modals
opened, text inserted into the editor, and query calls issued. -/
structure FetchOutcome where
  reported : List Str
  inserted : Option Str
  queryCalls : Nat
deriving DecidableEq

/-- The message of the `TypeError` thrown by `formatReport` on an
out-of-bounds header access, as stringified by `"Retrieval failed: " + error`. -/
def typeErrorMessage : Str :=
  ("TypeError: Cannot read properties of undefined (reading 'name')".toList)

/-- `fetchReportDetails` of the source: issues one query; on rejection the
`.catch` opens an error modal with `"Retrieval failed: " + error` and
nothing is inserted; on success the formatted report is inserted at the
cursor; a `TypeError` thrown by `formatReport` inside `.then` is caught by
the same `.catch`. -/
def fetchReportDetails (q : QueryOutcome) : FetchOutcome :=
  match q with
  | QueryOutcome.failure e =>
    { reported := [("Retrieval failed: ".toList) ++ e], inserted := none, queryCalls := 1 }
  | QueryOutcome.success data =>
    match formatReport data with
    | some s => { reported := [], inserted := some s, queryCalls := 1 }
    | none =>
      { reported := [("Retrieval failed: ".toList) ++ typeErrorMessage],
        inserted := none, queryCalls := 1 }

/-- Observable effects of one `runVideoReport` invocation. -/
structure RunOutcome where
  reported : List Str
  oauth2Client : Option Credentials
  authCalls : Nat
  queryCalls : Nat
  inserted : Option Str
deriving DecidableEq

/-- `runVideoReport` of the source: when `shouldAuthenticate` holds the
`authenticate` promise is invoked once; its chain
`.then(client => ...).then(client => ...)` has no rejection handler, so a
rejected authorization leaves the promise chain unhandled: no modal is
opened, the cached client is unchanged, and the query step never runs.  On
a fulfilled authorization the client is stored and `fetchReportDetails`
runs; when no re-authorization is needed `fetchReportDetails` runs directly. -/
def runVideoReport (cached : Option Credentials) (timeNowMs : Nat)
    (auth : AuthOutcome) (q : QueryOutcome) : RunOutcome :=
  if shouldAuthenticate cached timeNowMs then
    match auth with
    | AuthOutcome.ok client =>
      let f := fetchReportDetails q
      { reported := f.reported, oauth2Client := some client,
        authCalls := 1, queryCalls := f.queryCalls, inserted := f.inserted }
    | AuthOutcome.err _ =>
      { reported := [], oauth2Client := cached,
        authCalls := 1, queryCalls := 0, inserted := none }
  else
    let f := fetchReportDetails q
    { reported := f.reported, oauth2Client := cached,
      authCalls := 0, queryCalls := f.queryCalls, inserted := f.inserted }

/-- Observable effects of the options-form submission callback in `onload`. -/
structure SubmitOutcome where
  previousReportOptions : VideoReportOptions
  reportRan : Bool
  reported : List Str
deriving DecidableEq

/-- The submission callback passed to `VideoReportOptionsModal` in `onload`:
the submitted record is stored as `previousReportOptions` before the
validity test; on invalid options an error modal shows
`"Options set incorrectly:\n" + validate.violations` and the report is not
run; on valid options `runVideoReport` is invoked. -/
def onOptionsSubmit (result : VideoReportOptions) : SubmitOutcome :=
  let validate := validateOptions result
  if !validate.valid then
    { previousReportOptions := result, reportRan := false,
      reported := [("Options set incorrectly:\n".toList) ++ validate.violations.getD []] }
  else
    { previousReportOptions := result, reportRan := true, reported := [] }

/-- One emitted line without its terminating line break:
`<columnName>:: <cellValue>`. -/
def lineOf (h : AnalyticsReportColumn) (v : Nat) : Str :=
  h.name ++ sepStr ++ toDecimal v

/-- Modelled from the spec: the concatenation of all emitted lines, each
terminated by a line break — for every row in report order, for every cell
in column order, the line `<columnName>:: <cellValue>`. -/
def emittedBlock (r : AnalyticsReport) : Str :=
  List.flatten (r.rows.map fun row =>
    List.flatten (List.zipWith cellChunk r.columnHeaders row))

/-- Modelled from the spec: the original `(columnName, cellValue)` pairs of
a report in row-major order, the cell value in its rendered decimal form. -/
def reportPairs (r : AnalyticsReport) : List (Str × Str) :=
  List.flatten (r.rows.map fun row =>
    List.zipWith (fun h v => (h.name, toDecimal v)) r.columnHeaders row)

/-- Join a list of lines with single line breaks between them (the shape of
the formatter output after trimming). -/
def interLines : List Str → Str
  | [] => []
  | [l] => l
  | l :: ls => l ++ '\n' :: interLines ls

/-- Split a character list at every occurrence of the separator character
(the line splitter of the round-trip parser). -/
def splitSep (c : Char) : Str → List Str
  | [] => [[]]
  | x :: xs =>
    if x = c then [] :: splitSep c xs
    else
      match splitSep c xs with
      | [] => [[x]]
      | y :: ys => (x :: y) :: ys

/-- Whether the pattern is an initial segment of the list. -/
def startsWithStr : Str → Str → Bool
  | [], _ => true
  | _ :: _, [] => false
  | p :: ps, x :: xs => (p == x) && startsWithStr ps xs

/-- Split a list at the first occurrence of the pattern: `some (a, b)` with
the input equal to `a ++ p ++ b` and no earlier occurrence, `none` when the
pattern does not occur. -/
def breakAtSep (p : Str) : Str → Option (Str × Str)
  | [] => none
  | x :: xs =>
    if startsWithStr p (x :: xs) then some ([], (x :: xs).drop p.length)
    else (breakAtSep p xs).map fun q => (x :: q.1, q.2)

/-- Modelled from the spec: the round-trip line parser for `name:: value`,
splitting one line at the first `:: ` separator. -/
def parseLine (l : Str) : Option (Str × Str) := breakAtSep sepStr l

/-- Map a fallible function over a list, succeeding only if every element
succeeds. -/
def mapOption (f : α → Option β) : List α → Option (List β)
  | [] => some []
  | a :: l =>
    match f a, mapOption f l with
    | some b, some bs => some (b :: bs)
    | _, _ => none

/-- Modelled from the spec: feed the formatter output back through the line
parser — an empty output holds no lines, otherwise every line-break-
separated line is parsed as `name:: value`. -/
def parseReport (s : Str) : Option (List (Str × Str)) :=
  if s = [] then some [] else mapOption parseLine (splitSep '\n' s)

/-- Concrete report of the spec's golden example: columns `views`, `likes`;
rows `[[10, 2], [20, 4]]`. -/
def exampleReport : AnalyticsReport :=
  { columnHeaders := [{ name := ("views".toList), columnType := [], dataType := [] },
                      { name := ("likes".toList), columnType := [], dataType := [] }],
    rows := [[10, 2], [20, 4]] }

/-- Concrete report whose single column name ` a` begins with a space, with
matching row length. -/
def spacedReport : AnalyticsReport :=
  { columnHeaders := [{ name := (" a".toList), columnType := [], dataType := [] }],
    rows := [[1]] }

/-- Concrete report with one column but a row of two cells. -/
def overlongReport : AnalyticsReport :=
  { columnHeaders := [{ name := ("a".toList), columnType := [], dataType := [] }],
    rows := [[1, 2]] }

/-- Concrete report with no columns and one nonempty row. -/
def headerlessReport : AnalyticsReport :=
  { columnHeaders := [], rows := [[7]] }

/-- Concrete options record whose only failing check is the empty
`metrics` field. -/
def emptyMetricsOptions : VideoReportOptions :=
  { endDate := ("2021-01-02".toList), startDate := ("2021-01-01".toList),
    metrics := [], videoId := ("abc".toList) }

/-- Concrete options record with a whitespace-only (blank but truthy)
`metrics` field and every other field valid. -/
def blankMetricsOptions : VideoReportOptions :=
  { endDate := ("2021-01-02".toList), startDate := ("2021-01-01".toList),
    metrics := (" ".toList), videoId := ("abc".toList) }

/-- Claim C1, counterexample: a cached credential with the present expiry
timestamp `0` at time `0` makes `shouldAuthenticate` return `true`, although
none of the claim's three conditions (no credential cached, no known expiry,
`now > expiry`) holds — refuting "returns true exactly when". -/
theorem shouldAuthenticate_claim_cex :
    shouldAuthenticate (some { expiry_date := some 0 }) 0 = true ∧
    ¬((some { expiry_date := some 0 } : Option Credentials) = none ∨
      (Credentials.mk (some 0)).expiry_date = none ∨ (0 : Nat) > 0) := by
  decide

/-- Claim C1 (amended): for every cached-credential state and every time
`now`, the freshness check returns true exactly when no credential is
cached, or the cached expiry is absent or zero (falsy), or `now > expiry`;
it returns false only when a credential is cached with a known nonzero
expiry that `now` does not exceed. -/
theorem shouldAuthenticate_amended (client : Option Credentials) (now : Nat) :
    (shouldAuthenticate client now = true ↔
      client = none ∨ ∃ c, client = some c ∧
        (c.expiry_date = none ∨ c.expiry_date = some 0 ∨
          ∃ e, c.expiry_date = some e ∧ now > e))
    ∧ (shouldAuthenticate client now = false ↔
      ∃ c e, client = some c ∧ c.expiry_date = some e ∧ e ≠ 0 ∧ now ≤ e) := by
  rcases client with _ | c
  · simp [shouldAuthenticate]
  · rcases h : c.expiry_date with _ | e
    · simp [shouldAuthenticate, h]
    · by_cases he : e = 0
      · subst he
        simp [shouldAuthenticate, h]
      · simp [shouldAuthenticate, h, he]

/-- Claim C2, counterexample: with nothing cached (re-authorization needed)
and a failing authorization, `runVideoReport` reports no error at all — the
rejection of the `authenticate` promise chain is unhandled, refuting "the
failure is surfaced to the user as a reported error (not silently dropped)". -/
theorem runVideoReport_auth_cex :
    shouldAuthenticate none 0 = true ∧
    (runVideoReport none 0 (AuthOutcome.err ("boom".toList))
      (QueryOutcome.failure [])).reported = [] := by
  decide

/-- Claim C2 (amended): whenever re-authorization is needed and the external
authorization collaborator fails, no retry is performed (one authorization
attempt), no credential is stored (the cached client is unchanged), the
query is never issued and nothing is inserted — but the failure is NOT
surfaced as a reported error: it is silently dropped. -/
theorem runVideoReport_auth_failure (cached : Option Credentials) (now : Nat)
    (e : Str) (q : QueryOutcome) (h : shouldAuthenticate cached now = true) :
    runVideoReport cached now (AuthOutcome.err e) q =
      { reported := [], oauth2Client := cached, authCalls := 1,
        queryCalls := 0, inserted := none } := by
  simp [runVideoReport, h]

/-- Witness for `runVideoReport_auth_failure` at a concrete input. -/
theorem runVideoReport_auth_failure_witness :
    runVideoReport none 0 (AuthOutcome.err ("boom".toList)) (QueryOutcome.failure []) =
      { reported := [], oauth2Client := none, authCalls := 1,
        queryCalls := 0, inserted := none } :=
  runVideoReport_auth_failure none 0 ("boom".toList) (QueryOutcome.failure []) (by decide)

/-- Claim C3: `validateOptions` returns `valid = true` with `violations`
undefined exactly when all four checks pass; otherwise `valid = false` with
a violation message that concatenates, for every failed check, the line
naming that field as "not set correctly", trimmed of leading and trailing
whitespace — every failing field contributes its line, with no
short-circuiting. -/
theorem validateOptions_characterization (o : VideoReportOptions) :
    ((validateOptions o).valid = true ∧ (validateOptions o).violations = none ↔
      (momentIsValid o.startDate && momentIsValid o.endDate &&
        !o.metrics.isEmpty && !o.videoId.isEmpty) = true)
    ∧ ((momentIsValid o.startDate && momentIsValid o.endDate &&
        !o.metrics.isEmpty && !o.videoId.isEmpty) = false →
      (validateOptions o).valid = false ∧
      (validateOptions o).violations = some (trimChars (
        (if momentIsValid o.startDate then []
         else ("\n".toList) ++ ("\tstartDate: not set correctly.".toList)) ++
        (if momentIsValid o.endDate then []
         else ("\n".toList) ++ ("\tendDate: not set correctly.".toList)) ++
        (if o.metrics.isEmpty then ("\n".toList) ++ ("\tmetrics: not set correctly.".toList)
         else []) ++
        (if o.videoId.isEmpty then ("\n".toList) ++ ("\tvideoId: not set correctly.".toList)
         else [])))) := by
  cases h1 : momentIsValid o.startDate <;>
  cases h2 : momentIsValid o.endDate <;>
  cases h3 : o.metrics.isEmpty <;>
  cases h4 : o.videoId.isEmpty <;>
  simp [validateOptions, h1, h2, h3, h4]

/-- Witness for `validateOptions_characterization` at a concrete record
whose only failing check is the empty `metrics` field. -/
theorem validateOptions_characterization_witness :
    (validateOptions emptyMetricsOptions).valid = false ∧
    (validateOptions emptyMetricsOptions).violations =
      some ("metrics: not set correctly.".toList) :=
  have h := (validateOptions_characterization emptyMetricsOptions).2 (by decide)
  ⟨h.1, h.2.trans (by decide)⟩

/-- Claim C5: whenever the external query collaborator fails,
`fetchReportDetails` surfaces exactly one user-visible error containing the
failure detail, inserts nothing, and performs no retry; and any inserted
text can only arise from a successful query whose payload also formatted
successfully. -/
theorem fetchReportDetails_spec :
    (∀ e, fetchReportDetails (QueryOutcome.failure e) =
      { reported := [("Retrieval failed: ".toList) ++ e], inserted := none, queryCalls := 1 })
    ∧ (∀ q s, (fetchReportDetails q).inserted = some s →
        (∃ r, q = QueryOutcome.success r ∧ formatReport r = some s) ∧
        (fetchReportDetails q).queryCalls = 1 ∧ (fetchReportDetails q).reported = []) := by
  constructor
  · intro e; rfl
  · intro q s h
    rcases q with r | e
    · rcases hf : formatReport r with _ | out
      · simp [fetchReportDetails, hf] at h
      · have hs2 : s = out := by simpa [fetchReportDetails, hf] using h.symm
        subst hs2
        exact ⟨⟨r, rfl, hf⟩, by simp [fetchReportDetails, hf], by simp [fetchReportDetails, hf]⟩
    · simp [fetchReportDetails] at h

/-- Witness for `fetchReportDetails_spec` at a concrete successful query. -/
theorem fetchReportDetails_spec_witness :
    ((fetchReportDetails (QueryOutcome.success exampleReport)).inserted =
      some ("views:: 10\nlikes:: 2\nviews:: 20\nlikes:: 4".toList)) ∧
    ((∃ r, QueryOutcome.success exampleReport = QueryOutcome.success r ∧
        formatReport r = some ("views:: 10\nlikes:: 2\nviews:: 20\nlikes:: 4".toList)) ∧
      (fetchReportDetails (QueryOutcome.success exampleReport)).queryCalls = 1 ∧
      (fetchReportDetails (QueryOutcome.success exampleReport)).reported = []) :=
  ⟨by decide, fetchReportDetails_spec.2 (QueryOutcome.success exampleReport)
    ("views:: 10\nlikes:: 2\nviews:: 20\nlikes:: 4".toList) (by decide)⟩

/-- Claim C7: the submitted options record is stored as the new last-used
cache unconditionally; when validation fails the orchestrator does not run
and only the violation error is surfaced; when it succeeds the orchestrator
runs with no error. -/
theorem onOptionsSubmit_spec (result : VideoReportOptions) :
    (onOptionsSubmit result).previousReportOptions = result
    ∧ ((validateOptions result).valid = false →
        (onOptionsSubmit result).reportRan = false ∧
        (onOptionsSubmit result).reported =
          [("Options set incorrectly:\n".toList) ++
            ((validateOptions result).violations.getD [])])
    ∧ ((validateOptions result).valid = true →
        (onOptionsSubmit result).reportRan = true ∧
        (onOptionsSubmit result).reported = []) := by
  cases h : (validateOptions result).valid <;>
    simp [onOptionsSubmit, h]

/-- Witness for `onOptionsSubmit_spec` at a concrete invalid record. -/
theorem onOptionsSubmit_spec_witness :
    ((validateOptions emptyMetricsOptions).valid = false) ∧
    ((onOptionsSubmit emptyMetricsOptions).previousReportOptions = emptyMetricsOptions) ∧
    ((onOptionsSubmit emptyMetricsOptions).reportRan = false ∧
      (onOptionsSubmit emptyMetricsOptions).reported =
        [("Options set incorrectly:\n".toList) ++
          ((validateOptions emptyMetricsOptions).violations.getD [])]) :=
  ⟨by decide, (onOptionsSubmit_spec emptyMetricsOptions).1,
    (onOptionsSubmit_spec emptyMetricsOptions).2.1 (by decide)⟩

/-- Claim C8, counterexample: a whitespace-only `metrics` field is truthy
in JavaScript, so `validateOptions` passes it: the result is fully valid
with no violations, refuting "blank (consists only of whitespace) fails the
metrics check". -/
theorem validateOptions_blank_metrics_cex :
    (∀ c ∈ blankMetricsOptions.metrics, c.isWhitespace = true) ∧
    blankMetricsOptions.metrics ≠ [] ∧
    (validateOptions blankMetricsOptions).valid = true ∧
    (validateOptions blankMetricsOptions).violations = none := by
  decide

/-- Claim C8 (amended): a falsy — that is, empty — `metrics` field fails
the metrics check: the result is invalid and the violation text contains
the line naming the metrics field. -/
theorem validateOptions_empty_metrics (o : VideoReportOptions) (h : o.metrics = []) :
    (validateOptions o).valid = false ∧
    ∃ s, (validateOptions o).violations = some s ∧
      (breakAtSep ("metrics: not set correctly.".toList) s).isSome = true := by
  have h3 : o.metrics.isEmpty = true := by simp [h]
  cases h1 : momentIsValid o.startDate <;>
  cases h2 : momentIsValid o.endDate <;>
  cases h4 : o.videoId.isEmpty <;>
  simp [validateOptions, h1, h2, h3, h4] <;>
  decide

/-- Witness for `validateOptions_empty_metrics` at a concrete record. -/
theorem validateOptions_empty_metrics_witness :
    (validateOptions emptyMetricsOptions).valid = false ∧
    ∃ s, (validateOptions emptyMetricsOptions).violations = some s ∧
      (breakAtSep ("metrics: not set correctly.".toList) s).isSome = true :=
  validateOptions_empty_metrics emptyMetricsOptions rfl

/-- Claim C10: a cached credential whose expiry timestamp is present but
equal to `0` — a falsy number — makes the freshness check return true,
treated the same as an absent expiry rather than compared against `now`. -/
theorem shouldAuthenticate_zero_expiry (c : Credentials) (now : Nat)
    (h : c.expiry_date = some 0) : shouldAuthenticate (some c) now = true := by
  simp [shouldAuthenticate, h]

/-- Witness for `shouldAuthenticate_zero_expiry` at a concrete credential. -/
theorem shouldAuthenticate_zero_expiry_witness :
    shouldAuthenticate (some { expiry_date := some 0 }) 999 = true :=
  shouldAuthenticate_zero_expiry { expiry_date := some 0 } 999 rfl

theorem digitChar_not_ws (d : Nat) (h : d < 10) : (digitChar d).isWhitespace = false := by
  interval_cases d <;> decide

theorem toDecimalAux_not_ws (fuel : Nat) :
    ∀ n, n < fuel → ∀ c ∈ toDecimalAux fuel n, c.isWhitespace = false := by
  induction fuel with
  | zero => intro n hn; omega
  | succ fuel ih =>
    intro n hn c hc
    by_cases h10 : n < 10
    · simp [toDecimalAux, h10] at hc
      subst hc
      exact digitChar_not_ws n h10
    · simp [toDecimalAux, h10] at hc
      rcases hc with hc | hc
      · exact ih (n / 10) (by omega) c hc
      · subst hc
        exact digitChar_not_ws (n % 10) (Nat.mod_lt n (by omega))

theorem toDecimal_not_ws (n : Nat) : ∀ c ∈ toDecimal n, c.isWhitespace = false :=
  toDecimalAux_not_ws (n + 1) n (Nat.lt_succ_self n)

theorem toDecimal_ne_nil (n : Nat) : toDecimal n ≠ [] := by
  unfold toDecimal toDecimalAux
  by_cases h10 : n < 10 <;> simp [h10]

theorem formatCells_eq (row : List Nat) :
    ∀ hs : List AnalyticsReportColumn, row.length ≤ hs.length →
      formatCells hs row = some (List.flatten (List.zipWith cellChunk hs row)) := by
  induction row with
  | nil => intro hs _; cases hs <;> simp [formatCells]
  | cons v vs ih =>
    intro hs hlen
    cases hs with
    | nil => simp at hlen
    | cons h hs =>
      simp only [formatCells, ih hs (by simpa using hlen), Option.map_some]
      simp [List.zipWith_cons_cons]

theorem formatRows_eq (hs : List AnalyticsReportColumn) (rows : List (List Nat))
    (hlen : ∀ row ∈ rows, row.length ≤ hs.length) :
    formatRows hs rows =
      some (List.flatten (rows.map fun row => List.flatten (List.zipWith cellChunk hs row))) := by
  induction rows with
  | nil => simp [formatRows]
  | cons row rest ih =>
    simp only [formatRows, formatCells_eq row hs (hlen row (by simp)),
      ih (fun r hr => hlen r (by simp [hr]))]
    simp

/-- Claim C4 (amended): for every report whose rows all match the header
count, `formatReport` returns the concatenation of one `<columnName>:: <cellValue>`
line per cell (rows in order, columns in order, each line break-terminated)
with leading AND trailing whitespace trimmed from the whole block; the
golden example yields exactly its expected text, and a report with zero
rows yields the empty string. -/
theorem formatReport_trim_spec :
    (∀ r : AnalyticsReport, (∀ row ∈ r.rows, row.length = r.columnHeaders.length) →
      formatReport r = some (trimChars (emittedBlock r)))
    ∧ formatReport exampleReport =
        some ("views:: 10\nlikes:: 2\nviews:: 20\nlikes:: 4".toList)
    ∧ (∀ r : AnalyticsReport, r.rows = [] → formatReport r = some []) := by
  refine ⟨?_, by decide, ?_⟩
  · intro r hlen
    rw [formatReport, formatRows_eq r.columnHeaders r.rows
      (fun row hr => Nat.le_of_eq (hlen row hr))]
    rfl
  · intro r hr
    simp [formatReport, hr, formatRows, trimChars, dropLead, dropTrail]

/-- Claim C4, counterexample: with the single column name ` a` (leading
space) and matching row length, the emitted block is ` a:: 1\n`; trimming
only trailing whitespace as the claim states would give ` a:: 1`, but
`formatReport` returns `a:: 1` — `.trim()` strips both ends. -/
theorem formatReport_trailing_cex :
    formatReport spacedReport = some ("a:: 1".toList) ∧
    emittedBlock spacedReport = (" a:: 1\n".toList) ∧
    dropTrail (emittedBlock spacedReport) = (" a:: 1".toList) ∧
    formatReport spacedReport ≠ some (dropTrail (emittedBlock spacedReport)) ∧
    (∀ row ∈ spacedReport.rows, row.length = spacedReport.columnHeaders.length) := by
  decide

/-- Witness for `formatReport_trim_spec` at the golden example report. -/
theorem formatReport_trim_spec_witness :
    ((∀ row ∈ exampleReport.rows, row.length = exampleReport.columnHeaders.length) ∧
      formatReport exampleReport = some (trimChars (emittedBlock exampleReport))) :=
  ⟨by decide, formatReport_trim_spec.1 exampleReport (by decide)⟩

theorem formatCells_none (row : List Nat) :
    ∀ hs : List AnalyticsReportColumn, hs.length < row.length →
      formatCells hs row = none := by
  induction row with
  | nil => intro hs h; simp at h
  | cons v vs ih =>
    intro hs h
    cases hs with
    | nil => rfl
    | cons hh hs => simp [formatCells, ih hs (by simpa using h)]

theorem formatRows_none (hs : List AnalyticsReportColumn) (rows : List (List Nat))
    (row : List Nat) (hmem : row ∈ rows) (hlen : hs.length < row.length) :
    formatRows hs rows = none := by
  induction rows with
  | nil => simp at hmem
  | cons r rest ih =>
    rcases List.mem_cons.mp hmem with h | h
    · subst h
      simp [formatRows, formatCells_none row hs hlen]
    · cases hc : formatCells hs r with
      | none => simp [formatRows, hc]
      | some a => simp [formatRows, hc, ih h]

/-- Claim C6, counterexample: on a report with one column header and a row
of two cells, `formatReport` does not produce a result: the out-of-bounds
header access yields `undefined` and reading `.name` on it throws a
`TypeError` (modelled by `none`), refuting "format still produces a
result". -/
theorem formatReport_overlong_cex : formatReport overlongReport = none := by
  decide

/-- Claim C6 (amended): whenever some row is longer than the column-header
list, `formatReport` fails (the modelled thrown `TypeError`) instead of
emitting a line with an absent column name. -/
theorem formatReport_overlong_none (r : AnalyticsReport) (row : List Nat)
    (hmem : row ∈ r.rows) (hlen : r.columnHeaders.length < row.length) :
    formatReport r = none := by
  simp [formatReport, formatRows_none r.columnHeaders r.rows row hmem hlen]

/-- Witness for `formatReport_overlong_none` at a concrete report with no
headers and a nonempty row. -/
theorem formatReport_overlong_none_witness : formatReport headerlessReport = none :=
  formatReport_overlong_none headerlessReport [7] (by decide) (by decide)

theorem cellChunk_eq_lineOf (h : AnalyticsReportColumn) (v : Nat) :
    cellChunk h v = lineOf h v ++ ['\n'] := by
  have hnl : ("\n".toList) = ['\n'] := rfl
  simp [cellChunk, lineOf, hnl]

theorem lineOf_ne_nil (h : AnalyticsReportColumn) (v : Nat) : lineOf h v ≠ [] := by
  simp [lineOf, sepStr]

theorem lineOf_reverse (h : AnalyticsReportColumn) (v : Nat) :
    ∃ c u, (lineOf h v).reverse = c :: u ∧ c.isWhitespace = false := by
  rcases hd : (toDecimal v).reverse with _ | ⟨c, w⟩
  · exact absurd (by simpa using congrArg List.reverse hd) (toDecimal_ne_nil v)
  · have hc : c ∈ toDecimal v := by
      have : c ∈ (toDecimal v).reverse := by simp [hd]
      simpa using this
    refine ⟨c, w ++ sepStr.reverse ++ h.name.reverse, ?_, toDecimal_not_ws v c hc⟩
    simp [lineOf, List.reverse_append, hd]

theorem nl_not_mem_toDecimal (v : Nat) : ('\n' : Char) ∉ toDecimal v := by
  intro hmem
  have := toDecimal_not_ws v '\n' hmem
  simp [Char.isWhitespace] at this

theorem nl_not_mem_lineOf (h : AnalyticsReportColumn) (v : Nat)
    (hname : ('\n' : Char) ∉ h.name) : ('\n' : Char) ∉ lineOf h v := by
  intro hmem
  rcases List.mem_append.mp hmem with hmem | hmem
  · rcases List.mem_append.mp hmem with hmem | hmem
    · exact hname hmem
    · exact absurd hmem (by decide)
  · exact nl_not_mem_toDecimal v hmem

theorem startsWithStr_append_self (p t : Str) : startsWithStr p (p ++ t) = true := by
  induction p with
  | nil => rfl
  | cons x ps ih => simp [startsWithStr, ih]

theorem breakAtSep_none_no_occ (p : Str) (hp : p ≠ []) :
    ∀ s, breakAtSep p s = none → ∀ a b, s ≠ a ++ p ++ b := by
  intro s
  induction s with
  | nil =>
    intro _ a b hab
    have hlen := congrArg List.length hab
    have hplen : p.length ≠ 0 := by simpa using hp
    simp at hlen
    omega
  | cons x xs ih =>
    intro hnone a b hab
    by_cases hsw : startsWithStr p (x :: xs) = true
    · simp [breakAtSep, hsw] at hnone
    · have hrest : breakAtSep p xs = none := by
        simp [breakAtSep, hsw] at hnone
        exact hnone
      cases a with
      | nil =>
        simp at hab
        exact hsw (hab ▸ startsWithStr_append_self p b)
      | cons a0 a' =>
        simp at hab
        exact ih hrest a' b (by simp [hab.2])

theorem breakAtSep_exact : ∀ n d : Str, (∀ a b, n ≠ a ++ sepStr ++ b) →
    breakAtSep sepStr (n ++ (sepStr ++ d)) = some (n, d) := by
  intro n
  induction n with
  | nil =>
    intro d _
    have hshape : ([] : Str) ++ (sepStr ++ d) = ':' :: ':' :: ' ' :: d := rfl
    rw [hshape]
    simp [breakAtSep, startsWithStr, sepStr, List.drop]
  | cons c n' ih =>
    intro d hn
    have hcons : (c :: n') ++ (sepStr ++ d) = c :: (n' ++ (sepStr ++ d)) := rfl
    rw [hcons]
    have hsw : ¬ (startsWithStr sepStr (c :: (n' ++ (sepStr ++ d))) = true) := by
      intro hsw
      rcases n' with _ | ⟨x, n''⟩
      · simp [startsWithStr, sepStr] at hsw
      · rcases n'' with _ | ⟨y, n'''⟩
        · simp [startsWithStr, sepStr] at hsw
        · have hs3 : sepStr = [':', ':', ' '] := rfl
          rw [hs3] at hsw
          simp [startsWithStr] at hsw
          exact hn [] n''' (by simp [hs3, ← hsw.1, ← hsw.2.1, ← hsw.2.2])
    have hn' : ∀ a b, n' ≠ a ++ sepStr ++ b := by
      intro a b hab
      exact hn (c :: a) b (by simp [hab])
    simp [breakAtSep, hsw, ih d hn']

theorem parseLine_lineOf (h : AnalyticsReportColumn) (v : Nat)
    (hsep : breakAtSep sepStr h.name = none) :
    parseLine (lineOf h v) = some (h.name, toDecimal v) := by
  have hno := breakAtSep_none_no_occ sepStr (by decide) h.name hsep
  have hassoc : lineOf h v = h.name ++ (sepStr ++ toDecimal v) := by
    simp [lineOf, List.append_assoc]
  rw [parseLine, hassoc]
  exact breakAtSep_exact h.name (toDecimal v) hno

theorem splitSep_of_not_mem (c : Char) (l : Str) (h : c ∉ l) : splitSep c l = [l] := by
  induction l with
  | nil => rfl
  | cons x xs ih =>
    have hx : ¬ (x = c) := fun he => h (by simp [he])
    have hxs : c ∉ xs := fun hm => h (by simp [hm])
    simp [splitSep, hx, ih hxs]

theorem splitSep_append (c : Char) (l t : Str) (h : c ∉ l) :
    splitSep c (l ++ c :: t) = l :: splitSep c t := by
  induction l with
  | nil => simp [splitSep]
  | cons x xs ih =>
    have hx : ¬ (x = c) := fun he => h (by simp [he])
    have hxs : c ∉ xs := fun hm => h (by simp [hm])
    simp [splitSep, hx, ih hxs]

theorem splitSep_interLines : ∀ ls : List Str, ls ≠ [] → (∀ l ∈ ls, ('\n' : Char) ∉ l) →
    splitSep '\n' (interLines ls) = ls := by
  intro ls
  induction ls with
  | nil => intro h _; exact absurd rfl h
  | cons l rest ih =>
    intro _ hnl
    cases rest with
    | nil => simpa [interLines] using splitSep_of_not_mem '\n' l (hnl l (by simp))
    | cons l' rest' =>
      have hstep : interLines (l :: l' :: rest') = l ++ '\n' :: interLines (l' :: rest') := rfl
      rw [hstep, splitSep_append '\n' l (interLines (l' :: rest')) (hnl l (by simp)),
        ih (by simp) (fun x hx => hnl x (by simp [hx]))]

theorem flatten_nl_eq : ∀ ls : List Str, ls ≠ [] →
    List.flatten (ls.map fun l => l ++ ['\n']) = interLines ls ++ ['\n'] := by
  intro ls
  induction ls with
  | nil => intro h; exact absurd rfl h
  | cons l rest ih =>
    intro _
    cases rest with
    | nil => simp [interLines]
    | cons l' rest' =>
      have hstep : interLines (l :: l' :: rest') = l ++ '\n' :: interLines (l' :: rest') := rfl
      rw [List.map_cons, List.flatten_cons, ih (by simp), hstep]
      simp

theorem interLines_cons_head (c : Char) (t : Str) (ls : List Str) :
    ∃ u, interLines ((c :: t) :: ls) = c :: u := by
  cases ls with
  | nil => exact ⟨t, rfl⟩
  | cons l' rest => exact ⟨t ++ '\n' :: interLines (l' :: rest), rfl⟩

theorem interLines_reverse_head : ∀ ls : List Str, ls ≠ [] →
    (∀ l ∈ ls, ∃ c u, l.reverse = c :: u ∧ c.isWhitespace = false) →
    ∃ c u, (interLines ls).reverse = c :: u ∧ c.isWhitespace = false := by
  intro ls
  induction ls with
  | nil => intro h _; exact absurd rfl h
  | cons l rest ih =>
    intro _ hrev
    cases rest with
    | nil => simpa [interLines] using hrev l (by simp)
    | cons l' rest' =>
      have hstep : interLines (l :: l' :: rest') = l ++ '\n' :: interLines (l' :: rest') := rfl
      rcases ih (by simp) (fun x hx => hrev x (by simp [hx])) with ⟨c, u, hcu, hws⟩
      refine ⟨c, u ++ ['\n'] ++ l.reverse, ?_, hws⟩
      rw [hstep]
      simp [List.reverse_append, hcu]

theorem trim_of_nonws_ends (l : Str) (c₁ : Char) (t₁ : Str) (h1 : l = c₁ :: t₁)
    (hc1 : c₁.isWhitespace = false) (c₂ : Char) (u : Str) (h2 : l.reverse = c₂ :: u)
    (hc2 : c₂.isWhitespace = false) : trimChars (l ++ ['\n']) = l := by
  have hlead : dropLead (l ++ ['\n']) = l ++ ['\n'] := by
    rw [h1]
    simp [dropLead, List.dropWhile_cons, hc1]
  have hrev : (l ++ ['\n']).reverse = '\n' :: l.reverse := by simp
  have hnlws : ('\n' : Char).isWhitespace = true := by decide
  rw [trimChars, hlead, dropTrail, hrev, List.dropWhile_cons, if_pos hnlws, h2,
    List.dropWhile_cons, if_neg (by simp [hc2]), ← h2, List.reverse_reverse]

theorem mapOption_comp (f : α → Option γ) (m : β → α) :
    ∀ l : List β, mapOption f (l.map m) = mapOption (fun b => f (m b)) l := by
  intro l
  induction l with
  | nil => rfl
  | cons a l ih => simp [mapOption, ih]

theorem mapOption_eq_some (f : α → Option β) (g : α → β) :
    ∀ l : List α, (∀ a ∈ l, f a = some (g a)) → mapOption f l = some (l.map g) := by
  intro l
  induction l with
  | nil => intro _; rfl
  | cons a l ih =>
    intro h
    simp [mapOption, h a (by simp), ih (fun x hx => h x (by simp [hx]))]

theorem zipWith_eq_map_zip (f : α → β → γ) :
    ∀ (l₁ : List α) (l₂ : List β),
      List.zipWith f l₁ l₂ = (l₁.zip l₂).map fun p => f p.1 p.2 := by
  intro l₁
  induction l₁ with
  | nil => intro l₂; cases l₂ <;> rfl
  | cons a l ih =>
    intro l₂
    cases l₂ with
    | nil => rfl
    | cons b l₂ => simp [List.zip_cons_cons, ih]

theorem flatten_zipWith_as_map (f : α → β → γ) (hs : List α) :
    ∀ rows : List (List β),
      List.flatten (rows.map fun row => List.zipWith f hs row) =
      (List.flatten (rows.map fun row => hs.zip row)).map fun p => f p.1 p.2 := by
  intro rows
  induction rows with
  | nil => rfl
  | cons row rest ih =>
    simp only [List.map_cons, List.flatten_cons, List.map_append]
    rw [ih, zipWith_eq_map_zip]

theorem mem_flatten_zip (hs : List α) (rows : List (List β)) (p : α × β)
    (h : p ∈ List.flatten (rows.map fun row => hs.zip row)) : p.1 ∈ hs := by
  rcases List.mem_flatten.mp h with ⟨l, hl, hpl⟩
  rcases List.mem_map.mp hl with ⟨row, _, hrow⟩
  rcases p with ⟨a, b⟩
  exact (List.of_mem_zip (hrow ▸ hpl)).1

theorem flatten_zip_head (hs : List α) :
    ∀ (rows : List (List β)) (p : α × β) (FP : List (α × β)),
      List.flatten (rows.map fun row => hs.zip row) = p :: FP →
      ∃ hs', hs = p.1 :: hs' := by
  intro rows
  induction rows with
  | nil => intro p FP h; simp at h
  | cons row rest ih =>
    intro p FP h
    cases row with
    | nil =>
      simp only [List.map_cons, List.flatten_cons, List.zip_nil_right,
        List.nil_append] at h
      exact ih p FP h
    | cons b bs =>
      cases hs with
      | nil =>
        simp only [List.map_cons, List.flatten_cons, List.zip_nil_left,
          List.nil_append] at h
        exact ih p FP h
      | cons a hs' =>
        simp only [List.map_cons, List.flatten_cons, List.zip_cons_cons,
          List.cons_append, List.cons.injEq] at h
        exact ⟨hs', by rw [← h.1]⟩

theorem flatten_map_flatten (f : α → List β) :
    ∀ L : List (List α),
      List.flatten (L.map fun l => List.flatten (l.map f)) =
      List.flatten ((List.flatten L).map f) := by
  intro L
  induction L with
  | nil => rfl
  | cons l L' ih => simp [List.map_append, List.flatten_append, ih]

theorem lineOf_head (p : AnalyticsReportColumn × Nat)
    (hfirst : ∀ c ∈ p.1.name.take 1, c.isWhitespace = false) :
    ∃ c t, lineOf p.1 p.2 = c :: t ∧ c.isWhitespace = false := by
  rcases hnm : p.1.name with _ | ⟨c, nm⟩
  · refine ⟨':', ':' :: ' ' :: toDecimal p.2, ?_, by decide⟩
    rw [lineOf, hnm]
    rfl
  · refine ⟨c, (nm ++ sepStr) ++ toDecimal p.2, ?_, hfirst c (by simp [hnm])⟩
    rw [lineOf, hnm]
    simp

theorem parse_block_of_pairs (FP : List (AnalyticsReportColumn × Nat))
    (hsepFP : ∀ p ∈ FP, breakAtSep sepStr p.1.name = none)
    (hnlFP : ∀ p ∈ FP, ('\n' : Char) ∉ p.1.name)
    (hfirstFP : ∀ p ∈ FP.take 1, ∀ c ∈ p.1.name.take 1, c.isWhitespace = false) :
    parseReport (trimChars
      (List.flatten ((FP.map fun p => lineOf p.1 p.2).map fun l => l ++ ['\n']))) =
      some (FP.map fun p => (p.1.name, toDecimal p.2)) := by
  rcases FP with _ | ⟨p0, FP'⟩
  · rfl
  · have hAll : ∀ l ∈ (p0 :: FP').map fun p => lineOf p.1 p.2,
        ∃ p, p ∈ p0 :: FP' ∧ l = lineOf p.1 p.2 := by
      intro l hl
      rcases List.mem_map.mp hl with ⟨p, hp, hlp⟩
      exact ⟨p, hp, hlp.symm⟩
    have hlsne : ((p0 :: FP').map fun p => lineOf p.1 p.2) ≠ [] := by simp
    have hrevs : ∀ l ∈ (p0 :: FP').map fun p => lineOf p.1 p.2,
        ∃ c u, l.reverse = c :: u ∧ c.isWhitespace = false := by
      intro l hl
      rcases hAll l hl with ⟨p, _, rfl⟩
      exact lineOf_reverse p.1 p.2
    have hnls : ∀ l ∈ (p0 :: FP').map fun p => lineOf p.1 p.2, ('\n' : Char) ∉ l := by
      intro l hl
      rcases hAll l hl with ⟨p, hp, rfl⟩
      exact nl_not_mem_lineOf p.1 p.2 (hnlFP p hp)
    rcases lineOf_head p0 (hfirstFP p0 (by simp)) with ⟨c₁, t₁, hl0, hc₁⟩
    have hmap : ((p0 :: FP').map fun p => lineOf p.1 p.2) =
        (c₁ :: t₁) :: (FP'.map fun p => lineOf p.1 p.2) := by simp [hl0]
    rcases interLines_cons_head c₁ t₁ (FP'.map fun p => lineOf p.1 p.2) with ⟨u, hinter⟩
    have hinter' : interLines ((p0 :: FP').map fun p => lineOf p.1 p.2) = c₁ :: u := by
      rw [hmap, hinter]
    rcases interLines_reverse_head ((p0 :: FP').map fun p => lineOf p.1 p.2)
      hlsne hrevs with ⟨c₂, u₂, hrev, hc₂⟩
    rw [flatten_nl_eq ((p0 :: FP').map fun p => lineOf p.1 p.2) hlsne,
      trim_of_nonws_ends (interLines ((p0 :: FP').map fun p => lineOf p.1 p.2))
        c₁ u hinter' hc₁ c₂ u₂ hrev hc₂]
    rw [parseReport, if_neg (by rw [hinter']; simp)]
    rw [splitSep_interLines ((p0 :: FP').map fun p => lineOf p.1 p.2) hlsne hnls]
    rw [mapOption_comp parseLine (fun p => lineOf p.1 p.2) (p0 :: FP')]
    exact mapOption_eq_some _ _ (p0 :: FP')
      (fun p hp => parseLine_lineOf p.1 p.2 (hsepFP p hp))

/-- Claim C9 (amended): for every report whose rows all match the header
count and whose column names contain no line break and no `:: ` separator,
and whose first column name does not begin with whitespace, parsing each
line of the formatter output as `name:: value` recovers exactly the
original `(columnName, cellValue)` pairs in row-major order. -/
theorem formatReport_roundTrip (r : AnalyticsReport)
    (hlen : ∀ row ∈ r.rows, row.length = r.columnHeaders.length)
    (hnl : ∀ h ∈ r.columnHeaders, ('\n' : Char) ∉ h.name)
    (hsep : ∀ h ∈ r.columnHeaders, breakAtSep sepStr h.name = none)
    (hfirst : ∀ h ∈ r.columnHeaders.take 1, ∀ c ∈ h.name.take 1, c.isWhitespace = false) :
    ∃ s, formatReport r = some s ∧ parseReport s = some (reportPairs r) := by
  have hfun : cellChunk = fun h v => lineOf h v ++ ['\n'] := by
    funext h v
    exact cellChunk_eq_lineOf h v
  have hzip : ∀ row : List Nat, List.zipWith cellChunk r.columnHeaders row =
      (List.zipWith lineOf r.columnHeaders row).map fun l => l ++ ['\n'] := by
    intro row
    rw [hfun]
    simp [zipWith_eq_map_zip, List.map_map]
  have hfr := formatRows_eq r.columnHeaders r.rows
    (fun row hr => Nat.le_of_eq (hlen row hr))
  have hflat := flatten_map_flatten (fun l => l ++ ['\n'])
      (r.rows.map fun row => List.zipWith lineOf r.columnHeaders row)
  rw [List.map_map] at hflat
  have hls := flatten_zipWith_as_map lineOf r.columnHeaders r.rows
  have hpairs : reportPairs r =
      (List.flatten (r.rows.map fun row => r.columnHeaders.zip row)).map
        fun p => (p.1.name, toDecimal p.2) := by
    rw [reportPairs]
    exact flatten_zipWith_as_map _ r.columnHeaders r.rows
  have hsep2 : ∀ p ∈ List.flatten (r.rows.map fun row => r.columnHeaders.zip row),
      breakAtSep sepStr p.1.name = none :=
    fun p hp => hsep p.1 (mem_flatten_zip r.columnHeaders r.rows p hp)
  have hnl2 : ∀ p ∈ List.flatten (r.rows.map fun row => r.columnHeaders.zip row),
      ('\n' : Char) ∉ p.1.name :=
    fun p hp => hnl p.1 (mem_flatten_zip r.columnHeaders r.rows p hp)
  have hfirst2 : ∀ p ∈ (List.flatten (r.rows.map fun row => r.columnHeaders.zip row)).take 1,
      ∀ c ∈ p.1.name.take 1, c.isWhitespace = false := by
    intro p hp c hc
    rcases hFP : List.flatten (r.rows.map fun row => r.columnHeaders.zip row) with _ | ⟨p0, rest⟩
    · rw [hFP] at hp
      simp at hp
    · rw [hFP] at hp
      simp at hp
      subst hp
      rcases flatten_zip_head r.columnHeaders r.rows p rest hFP with ⟨hs', hhead⟩
      exact hfirst p.1 (by rw [hhead]; simp) c hc
  have hblock : List.flatten (r.rows.map fun row =>
        List.flatten (List.zipWith cellChunk r.columnHeaders row)) =
      List.flatten (((List.flatten (r.rows.map fun row => r.columnHeaders.zip row)).map
        fun p => lineOf p.1 p.2).map fun l => l ++ ['\n']) := by
    have hzip2 : (fun row : List Nat =>
        List.flatten (List.zipWith cellChunk r.columnHeaders row)) =
        fun row => List.flatten ((List.zipWith lineOf r.columnHeaders row).map
          fun l => l ++ ['\n']) :=
      funext fun row => by rw [hzip row]
    rw [hzip2, ← hls]
    exact hflat
  refine ⟨trimChars (List.flatten
      (((List.flatten (r.rows.map fun row => r.columnHeaders.zip row)).map
        fun p => lineOf p.1 p.2).map fun l => l ++ ['\n'])), ?_, ?_⟩
  · rw [formatReport, hfr, hblock]
    rfl
  · rw [hpairs]
    exact parse_block_of_pairs _ hsep2 hnl2 hfirst2

/-- Claim C9, counterexample: the column name ` a` contains no line break
and no `:: `, and row lengths match, yet the round trip recovers the pair
`("a", "1")` instead of the original `(" a", "1")` — the block-level
`.trim()` ate the leading space of the first column name. -/
theorem formatReport_roundTrip_cex :
    (∀ row ∈ spacedReport.rows, row.length = spacedReport.columnHeaders.length) ∧
    (∀ h ∈ spacedReport.columnHeaders,
      ('\n' : Char) ∉ h.name ∧ breakAtSep sepStr h.name = none) ∧
    formatReport spacedReport = some ("a:: 1".toList) ∧
    parseReport ("a:: 1".toList) = some [(("a".toList), ("1".toList))] ∧
    reportPairs spacedReport = [((" a".toList), ("1".toList))] ∧
    (("a".toList, "1".toList) : Str × Str) ≠ (" a".toList, "1".toList) := by
  decide

/-- Witness for `formatReport_roundTrip` at the golden example report. -/
theorem formatReport_roundTrip_witness :
    ∃ s, formatReport exampleReport = some s ∧
      parseReport s = some (reportPairs exampleReport) :=
  formatReport_roundTrip exampleReport (by decide) (by decide) (by decide) (by decide)
